import Mathlib

/-!
Shallow embedding of the conflict-resolution engine of `unidep`
(`src/unidep/_conflicts.py`) together with theorems checking the
natural-language specification against it.

Python machine model used throughout:
* Python `str` is modelled by `String`; substring tests (`op in pinning`)
  and `str.replace` are modelled by the corresponding list-of-characters
  operations; Python string comparison is code-point lexicographic, which
  matches `String`'s order.
* Python `int(s)` is modelled by `pyInt?` below, returning `none` where
  Python raises `ValueError`.  The modelled fragment is ASCII: optional
  surrounding ASCII whitespace, an optional sign, and a nonempty digit
  sequence with single underscores allowed between digits.  (Python also
  accepts some non-ASCII digits and whitespace; no claim depends on those.)
* Python exceptions are modelled by `Except String` / `Option`.
* Warnings (the `warn` side channel of `unidep.utils`) are modelled as
  structured values collected in returned lists.
* Python `dict` (insertion-ordered, unique keys) is modelled by an
  association list; `defaultdict` insertion appends new keys at the end,
  which the update function below reproduces.
-/

namespace Unidep

/-! ## Python primitives -/

/-- ASCII whitespace stripped by Python's `int()` / `str.strip`. -/
def isPySpace (c : Char) : Bool :=
  c == ' ' || c == '\t' || c == '\n' || c == '\r' || c == '\x0b' || c == '\x0c'

/-- Strip ASCII whitespace from both ends of a character list. -/
def stripWs (l : List Char) : List Char :=
  ((l.dropWhile isPySpace).reverse.dropWhile isPySpace).reverse

/-- Tail of a Python integer literal body: digits with single underscores
between digits (`1_000` is accepted, `1__0` and `1_` are not). -/
def digitsTail : List Char → Bool
  | [] => true
  | '_' :: c :: rest => c.isDigit && digitsTail rest
  | '_' :: [] => false
  | c :: rest => c.isDigit && digitsTail rest

/-- A valid Python integer literal body: nonempty, starts with a digit. -/
def digitsOk : List Char → Bool
  | [] => false
  | c :: rest => c.isDigit && digitsTail rest

/-- Numeric value of a digit sequence, ignoring underscores. -/
def digitsVal (l : List Char) : Nat :=
  l.foldl (fun a c => if c == '_' then a else a * 10 + (c.toNat - 48)) 0

/-- Python `int(s)`: `some n` where Python returns `n`, `none` where Python
raises `ValueError`. -/
def pyInt? (s : String) : Option Int :=
  match stripWs s.toList with
  | '+' :: rest => if digitsOk rest then some (digitsVal rest : Int) else none
  | '-' :: rest => if digitsOk rest then some (-(digitsVal rest : Int)) else none
  | l => if digitsOk l then some (digitsVal l : Int) else none

/-- Tests whether `needle` starts `hay` (character lists). -/
def startsWithCh : List Char → List Char → Bool
  | [], _ => true
  | _ :: _, [] => false
  | a :: as, b :: bs => a == b && startsWithCh as bs

/-- Python `needle in hay` substring test. -/
def containsCh (needle : List Char) : List Char → Bool
  | [] => startsWithCh needle []
  | c :: rest => startsWithCh needle (c :: rest) || containsCh needle rest

/-- Python `needle in hay` on strings. -/
def strContains (hay needle : String) : Bool :=
  containsCh needle.toList hay.toList

/-- Worker for `replaceCh`, structurally recursive on a fuel counter so that
it reduces inside the kernel.  The fuel starts at the length of the text and
decreases by one per step while the text shrinks by at least one character
per step (by `pat.length ≥ 1` when a match is consumed), so the `0` case is
never reached on the initial fuel. -/
def replaceChAux (pat repl : List Char) : Nat → List Char → List Char
  | _, [] => []
  | 0, s => s
  | Nat.succ fuel, c :: rest =>
    if pat ≠ [] ∧ startsWithCh pat (c :: rest) then
      repl ++ replaceChAux pat repl fuel ((c :: rest).drop pat.length)
    else
      c :: replaceChAux pat repl fuel rest

/-- Python `s.replace(pat, repl)` on character lists: left-to-right,
non-overlapping, every occurrence.  (Only called with nonempty patterns;
an empty pattern returns the input unchanged.) -/
def replaceCh (pat repl s : List Char) : List Char :=
  replaceChAux pat repl s.length s

/-- Python `s.replace(pat, repl)`. -/
def pyReplace (s pat repl : String) : String :=
  String.mk (replaceCh pat.toList repl.toList s.toList)

/-- Python `s.startswith(pre)`. -/
def pyStartsWith (s pre : String) : Bool :=
  startsWithCh pre.toList s.toList

/-- Python `s[n:]` (by characters; the pins handled here are ASCII). -/
def pyDrop (n : Nat) (s : String) : String :=
  String.mk (s.toList.drop n)

/-- Python `sep.join(xs)`. -/
def pyJoin (sep : String) : List String → String
  | [] => ""
  | [x] => x
  | x :: y :: rest => x ++ sep ++ pyJoin sep (y :: rest)

/-! ## Pin parsing (`_conflicts.py` lines 124-160) -/

/-- Python `_parse_pinning`: separates the operator and the version number.
Tries `<=`, `>=`, `<`, `>` in order; on a match removes every occurrence of
the operator and applies `int()`; `none` models the `ValueError` raised when
the remainder is not an integer.  With no operator present returns
`("", 0)`. -/
def parsePinning (pinning : String) : Option (String × Int) :=
  if strContains pinning "<=" then
    (pyInt? (pyReplace pinning "<=" "")).map (fun n => ("<=", n))
  else if strContains pinning ">=" then
    (pyInt? (pyReplace pinning ">=" "")).map (fun n => (">=", n))
  else if strContains pinning "<" then
    (pyInt? (pyReplace pinning "<" "")).map (fun n => ("<", n))
  else if strContains pinning ">" then
    (pyInt? (pyReplace pinning ">" "")).map (fun n => (">", n))
  else some ("", 0)

/-- Total wrapper for `parsePinning`.  Inside `combine_version_pinnings` and
`_is_redundant` the function is only ever applied to valid pinnings, on which
`parsePinning` never fails, so the default is unreachable there. -/
def parsePin (pinning : String) : String × Int :=
  (parsePinning pinning).getD ("", 0)

/-- The operator string of a pin (under `parsePin`). -/
def pinOp (p : String) : String := (parsePin p).1

/-- The numeric threshold of a pin (under `parsePin`). -/
def pinVer (p : String) : Int := (parsePin p).2

/-- Python `op in ["<", "<="]` — an upper bound. -/
def opIsUpper (op : String) : Bool := op == "<" || op == "<="

/-- Python `op in [">", ">="]` — a lower bound. -/
def opIsLower (op : String) : Bool := op == ">" || op == ">="

/-- Python `_is_redundant`: a pinning is redundant given the others when some other
pinning (skipping string-identical entries) has the same direction and an
equal-or-tighter threshold; thresholds only, operators inside one direction
are not distinguished. -/
def isRedundant (pinning : String) (otherPinnings : List String) : Bool :=
  otherPinnings.any (fun other =>
    other != pinning &&
    ((opIsUpper (pinOp pinning) && opIsUpper (pinOp other) &&
        decide (pinVer pinning ≥ pinVer other)) ||
     (opIsLower (pinOp pinning) && opIsLower (pinOp other) &&
        decide (pinVer pinning ≤ pinVer other))))

/-- Python `_is_valid_pinning`: `=N` with integer `N`, or a comparison pinning whose
`_parse_pinning` succeeds. -/
def isValidPinning (pinning : String) : Bool :=
  if strContains pinning "=" && pyStartsWith pinning "=" then
    (pyInt? (pyDrop 1 pinning)).isSome
  else if strContains pinning "<=" || strContains pinning ">=" ||
      strContains pinning "<" || strContains pinning ">" then
    (parsePinning pinning).isSome
  else
    false

/-! ## `combine_version_pinnings` (`_conflicts.py` lines 163-207) -/

/-- The valid pinnings kept by the first filter of `combine_version_pinnings`. -/
def validPinningsOf (pinnings : List String) : List String :=
  pinnings.filter isValidPinning

/-- The exact pinnings (`=N`) among the valid ones. -/
def exactPinningsOf (pinnings : List String) : List String :=
  (validPinningsOf pinnings).filter (fun p => pyStartsWith p "=")

/-- The non-redundant pinnings surviving the redundancy filter. -/
def nonRedundantOf (pinnings : List String) : List String :=
  (validPinningsOf pinnings).filter
    (fun p => !(isRedundant p (validPinningsOf pinnings)))

/-- The inclusive (`<=`/`>=`) pinnings among the valid ones, used by the
empty-survivor fallback. -/
def inclusivePinningsOf (pinnings : List String) : List String :=
  (validPinningsOf pinnings).filter
    (fun p => pyStartsWith p "<=" || pyStartsWith p ">=")

/-- The condition under which an exact value contradicts another pinning in
the exact-pin loop of `combine_version_pinnings`. -/
def exactConflict (exactVersion : Int) (otherPin : String) : Bool :=
  (opIsUpper (pinOp otherPin) && decide (exactVersion ≥ pinVer otherPin)) ||
  (opIsLower (pinOp otherPin) && decide (exactVersion ≤ pinVer otherPin))

/-- Models `int(exact_pinnings[0][1:])`; on the valid exact pinnings reached in
`combine_version_pinnings` the `int()` always succeeds, so the default is
unreachable there. -/
def exactVersionOf (e : String) : Int :=
  (pyInt? (pyDrop 1 e)).getD 0

/-- The loop over `valid_pinnings` in the exact branch: first pinning other
than the first exact one that contradicts the exact version. -/
def exactScan (exact0 : String) (exactVersion : Int) : List String → Option String
  | [] => none
  | p :: rest =>
    if p != exact0 && exactConflict exactVersion p then some p
    else exactScan exact0 exactVersion rest

/-- The cross-direction contradiction test of the pairwise loop. -/
def contraPair (pin otherPin : String) : Bool :=
  (opIsUpper (pinOp pin) && opIsLower (pinOp otherPin) &&
    decide (pinVer pin < pinVer otherPin)) ||
  (opIsUpper (pinOp otherPin) && opIsLower (pinOp pin) &&
    decide (pinVer otherPin < pinVer pin))

/-- The nested loop over index pairs `i < j`: first contradicting pair. -/
def pairScan : List String → Option (String × String)
  | [] => none
  | p :: rest =>
    match rest.find? (fun q => contraPair p q) with
    | some q => some (p, q)
    | none => pairScan rest

/-- Python `min(xs, key=f)` on the nonempty list `x :: xs`: the first element
attaining the minimal key. -/
def pyMinBy (f : String → Int) (x : String) (xs : List String) : String :=
  xs.foldl (fun best y => if f y < f best then y else best) x

/-- Python `combine_version_pinnings`.  `Except.error` models the `ValueError`
raised on a contradiction; the message carries both offending pins as in the
source. -/
def combineVersionPinnings (pinnings : List String) : Except String String :=
  match validPinningsOf pinnings with
  | [] => .ok ""
  | v :: vs =>
    match exactPinningsOf pinnings with
    | e :: _ =>
      match exactScan e (exactVersionOf e) (validPinningsOf pinnings) with
      | some otherPin =>
        .error ("Contradictory version pinnings found: " ++ e ++ " and " ++ otherPin)
      | none => .ok e
    | [] =>
      match pairScan (nonRedundantOf pinnings) with
      | some (pin, otherPin) =>
        .error ("Contradictory version pinnings found: " ++ pin ++ " and " ++ otherPin)
      | none =>
        match nonRedundantOf pinnings with
        | [] =>
          match inclusivePinningsOf pinnings with
          | i :: irest => .ok (pyMinBy pinVer i irest)
          | [] => .ok (pyMinBy pinVer v vs)
        | nr₀ :: nrs => .ok (pyJoin "," (nr₀ :: nrs))

/-! ## Data model -/

/-- Platform identifiers are opaque strings (e.g. `"linux-64"`);
`Option Platform` with `none` is the "all platforms" sentinel. -/
abbrev Platform := String

/-- The two source ecosystems. -/
inductive CondaPip where
  | conda
  | pip
deriving DecidableEq, Repr

/-- Modelled from the spec: the `Meta` record (`unidep.platform_definitions`
is not part of the sources).  Per the spec's data model, a Declaration
carries a package name, a nullable version-pin string, a source-ecosystem
tag, a nullable ordered set of applicable platforms (the result of the
`platforms()` method), and equality is by value across all attributes.  The
human-readable rendering used in warning texts is determined by the record,
so warnings below reference the `Meta` values themselves. -/
structure Meta where
  name : String
  which : CondaPip
  pin : Option String := none
  platforms : Option (List Platform) := none
deriving DecidableEq, Repr

/-- Structured form of the two warnings `_conflicts.py` emits through the
`warn` side channel. -/
inductive ConflictWarning where
  /-- "Platform Conflict Detected": on `platform`, `selected` (`which`) is
  retained, `discarded` are discarded. -/
  | platformConflict (platform : Option Platform) (selected : Meta)
      (which : CondaPip) (discarded : List Meta)
  /-- "Version Pinning Conflict": different pins for conda and pip, both
  retained. -/
  | pinningConflict (condaPin pipPin : Option String)
deriving DecidableEq, Repr

/-! ## Association-list model of Python dicts -/

/-- First value stored at key `k` (Python `d.get(k)` / `d[k]`; dicts never
hold duplicate keys, association lists built below do not either). -/
def alLookup [BEq α] (k : α) : List (α × β) → Option β
  | [] => none
  | (k', v) :: rest => if k' == k then some v else alLookup k rest

/-- Models `d[k] = f(d.get(k, dflt))` on an insertion-ordered dict: updates the
first entry at `k` in place, or appends a fresh entry at the end (where
`defaultdict` inserts new keys). -/
def alUpd [BEq α] (k : α) (f : β → β) (dflt : β) : List (α × β) → List (α × β)
  | [] => [(k, f dflt)]
  | (k', v) :: rest =>
    if k' == k then (k', f v) :: rest else (k', v) :: alUpd k f dflt rest

/-- The per-package grouping structure: platform-or-null → ecosystem →
list of Metas. -/
abbrev Grouped := List (Option Platform × List (CondaPip × List Meta))

/-- Per-platform sources after selection: ecosystem → selected Meta. -/
abbrev SourceMap := List (CondaPip × Meta)

/-- Per-package selection result: platform-or-null → sources. -/
abbrev SelectedPlatforms := List (Option Platform × SourceMap)

/-- The output of `resolve_conflicts`: package → platform → ecosystem →
surviving Meta. -/
abbrev Resolved := List (String × SelectedPlatforms)

/-! ## Grouper (`_prepare_metas_for_conflict_resolution`, lines 21-44) -/

/-- Models `platforms = meta.platforms(); if platforms is None: platforms = [None]`. -/
def platformsOrNull (m : Meta) : List (Option Platform) :=
  match m.platforms with
  | none => [none]
  | some ps => ps.map some

/-- Models `grouped_metas[_platform][meta.which].append(meta)` for one platform. -/
def addMetaForPlatform (g : Grouped) (m : Meta) (p : Option Platform) : Grouped :=
  alUpd p (fun inner => alUpd m.which (fun l => l ++ [m]) [] inner) [] g

/-- The inner `for _platform in platforms` loop for one Meta. -/
def addMeta (g : Grouped) (m : Meta) : Grouped :=
  (platformsOrNull m).foldl (fun g' p => addMetaForPlatform g' m p) g

/-- Grouping of one package's Meta list (the body of the outer loop of
`_prepare_metas_for_conflict_resolution`). -/
def groupMetas (metas : List Meta) : Grouped :=
  metas.foldl addMeta []

/-- Python `_prepare_metas_for_conflict_resolution`. -/
def prepareMetasForConflictResolution (requirements : List (String × List Meta)) :
    List (String × Grouped) :=
  requirements.map (fun pr => (pr.1, groupMetas pr.2))

/-- The `(platform, ecosystem)` bucket of a grouped structure. -/
def bucketOf (g : Grouped) (p : Option Platform) (w : CondaPip) : List Meta :=
  (alLookup w ((alLookup p g).getD [])).getD []

/-! ## Platform Selector (`_select_preferred_version_within_platform`,
lines 47-77) -/

/-- The Python sort key is `(m.pin is not None, m.pin)` compared as a tuple:
booleans first, then the pins (`None` only ever meets `None`, strings
compare lexicographically).  `pinKeyLe a b` says `a`'s key is ≤ `b`'s. -/
def pinKeyLe (a b : Meta) : Bool :=
  match a.pin, b.pin with
  | none, _ => true
  | some _, none => false
  | some x, some y => x ≤ y

/-- Stable insertion for the descending sort: `m` goes in front of the first
element whose key is ≤ `m`'s, so equal keys keep their original order, as
CPython's stable `list.sort(reverse=True)` does. -/
def insertDesc (m : Meta) : List Meta → List Meta
  | [] => [m]
  | n :: rest => if pinKeyLe n m then m :: n :: rest else n :: insertDesc m rest

/-- Models `metas.sort(key=lambda m: (m.pin is not None, m.pin), reverse=True)`. -/
def sortDescByPin : List Meta → List Meta
  | [] => []
  | m :: rest => insertDesc m (sortDescByPin rest)

/-- Selection in one `(platform, ecosystem)` bucket (lines 54-76): buckets of
size one pass through; larger buckets are sorted, the head is selected, and
the discarded Metas that differ from it are reported in one warning.  `none`
models the `IndexError` Python would raise on an empty bucket (the Grouper
never builds one). -/
def selectInBucket (platform : Option Platform) (which : CondaPip) :
    List Meta → Option (Meta × List ConflictWarning)
  | [] => none
  | [m] => some (m, [])
  | m₀ :: m₁ :: rest =>
    match sortDescByPin (m₀ :: m₁ :: rest) with
    | [] => none
    | selected :: sortedRest =>
      let discarded := sortedRest.filter (fun m => m != selected)
      some (selected,
        if discarded.isEmpty then []
        else [ConflictWarning.platformConflict platform selected which discarded])

/-- The inner `for which, metas in packages.items()` loop. -/
def selectSources (platform : Option Platform) :
    List (CondaPip × List Meta) → Option (SourceMap × List ConflictWarning)
  | [] => some ([], [])
  | (w, metas) :: rest => do
    let (m, ws) ← selectInBucket platform w metas
    let (restSel, restWs) ← selectSources platform rest
    pure ((w, m) :: restSel, ws ++ restWs)

/-- Python `_select_preferred_version_within_platform` (the unused
`strategy` parameter is omitted). -/
def selectPreferredVersionWithinPlatform :
    Grouped → Option (SelectedPlatforms × List ConflictWarning)
  | [] => some ([], [])
  | (p, packages) :: rest => do
    let (sel, ws) ← selectSources p packages
    let (restSel, restWs) ← selectPreferredVersionWithinPlatform rest
    pure ((p, sel) :: restSel, ws ++ restWs)

/-! ## Cross-Ecosystem Reconciler (`_resolve_conda_pip_conflicts`,
lines 80-101) -/

/-- Python truthiness of an optional pin string: `None` and `""` are falsy. -/
def pyTruthyPin : Option String → Bool
  | none => false
  | some s => !s.toList.isEmpty

/-- Python `_resolve_conda_pip_conflicts`. -/
def resolveCondaPipConflicts (sources : SourceMap) :
    SourceMap × List ConflictWarning :=
  match alLookup CondaPip.conda sources, alLookup CondaPip.pip sources with
  | some condaMeta, some pipMeta =>
    if pyTruthyPin condaMeta.pin && !(pyTruthyPin pipMeta.pin) then
      ([(CondaPip.conda, condaMeta)], [])
    else if pyTruthyPin pipMeta.pin && !(pyTruthyPin condaMeta.pin) then
      ([(CondaPip.pip, pipMeta)], [])
    else if condaMeta.pin == pipMeta.pin then
      ([(CondaPip.conda, condaMeta), (CondaPip.pip, pipMeta)], [])
    else
      ([(CondaPip.conda, condaMeta), (CondaPip.pip, pipMeta)],
       [ConflictWarning.pinningConflict condaMeta.pin pipMeta.pin])
  | _, _ => (sources, [])

/-! ## `resolve_conflicts` (lines 104-121) -/

/-- Selection applied to every package of the prepared structure. -/
def selectAll : List (String × Grouped) →
    Option (Resolved × List ConflictWarning)
  | [] => some ([], [])
  | (pkg, data) :: rest => do
    let (sel, ws) ← selectPreferredVersionWithinPlatform data
    let (restSel, restWs) ← selectAll rest
    pure ((pkg, sel) :: restSel, ws ++ restWs)

/-- The reconcile loop over one package's platforms. -/
def reconcilePlatforms : SelectedPlatforms →
    SelectedPlatforms × List ConflictWarning
  | [] => ([], [])
  | (p, sources) :: rest =>
    let (res, ws) := resolveCondaPipConflicts sources
    let (restRes, restWs) := reconcilePlatforms rest
    ((p, res) :: restRes, ws ++ restWs)

/-- The reconcile loop over all packages. -/
def reconcileAll : Resolved → Resolved × List ConflictWarning
  | [] => ([], [])
  | (pkg, platforms) :: rest =>
    let (res, ws) := reconcilePlatforms platforms
    let (restRes, restWs) := reconcileAll rest
    ((pkg, res) :: restRes, ws ++ restWs)

/-- Python `resolve_conflicts`: group, select per package, then reconcile each
platform's sources.  Warnings are collected in emission order (all selection
warnings, then reconciliation warnings). -/
def resolveConflicts (requirements : List (String × List Meta)) :
    Option (Resolved × List ConflictWarning) := do
  let (selected, selWs) ← selectAll (prepareMetasForConflictResolution requirements)
  let (final, recWs) := reconcileAll selected
  pure (final, selWs ++ recWs)

/-! ## Counting helpers for the accounting invariant -/

/-- Number of surviving `(package, platform, ecosystem)` slots of a resolved
structure holding exactly the Meta `m`. -/
def survivingSlotCount (m : Meta) (res : Resolved) : Nat :=
  res.foldl (fun n pkg =>
    pkg.2.foldl (fun n' pl =>
      n' + pl.2.countP (fun e => e.2 == m)) n) 0

/-- Number of warnings in `ws` that name `m` as a discarded Declaration. -/
def warningsNaming (m : Meta) (ws : List ConflictWarning) : Nat :=
  ws.countP (fun w =>
    match w with
    | ConflictWarning.platformConflict _ _ _ discarded => m ∈ discarded
    | ConflictWarning.pinningConflict _ _ => false)

/-- Claim-side notion: among surviving pins, `p` states an upper bound whose
threshold is strictly below the lower bound stated by `q` — the
cross-direction contradiction of spec step 4. -/
abbrev upperBelowLower (p q : String) : Prop :=
  opIsUpper (pinOp p) = true ∧ opIsLower (pinOp q) = true ∧ pinVer p < pinVer q

/-- Claim-side notion (from the spec's words, not from the source): the exact
value `n` satisfies the comparison bound stated by `otherPin`. -/
def boundSatisfiedBy (n : Int) (otherPin : String) : Bool :=
  let (op, ver) := parsePin otherPin
  if op == "<" then n < ver
  else if op == "<=" then n ≤ ver
  else if op == ">" then n > ver
  else if op == ">=" then n ≥ ver
  else true

end Unidep

namespace Unidep

/-! # Theorems -/

/-! ## Sort-order lemmas for the Platform Selector -/

theorem pinKeyLe_refl (a : Meta) : pinKeyLe a a = true := by
  cases h : a.pin <;> simp [pinKeyLe, h]

theorem pinKeyLe_total (a b : Meta) :
    pinKeyLe a b = true ∨ pinKeyLe b a = true := by
  cases ha : a.pin <;> cases hb : b.pin <;> simp [pinKeyLe, ha, hb]
  exact le_total _ _

theorem pinKeyLe_trans {a b c : Meta} (hab : pinKeyLe a b = true)
    (hbc : pinKeyLe b c = true) : pinKeyLe a c = true := by
  cases ha : a.pin <;> cases hb : b.pin <;> cases hc : c.pin <;>
    simp_all [pinKeyLe]
  exact le_trans hab hbc

theorem insertDesc_perm (m : Meta) (l : List Meta) :
    List.Perm (insertDesc m l) (m :: l) := by
  induction l with
  | nil => exact List.Perm.refl _
  | cons n rest ih =>
    rw [insertDesc]
    by_cases h : pinKeyLe n m = true
    · rw [if_pos h]
    · rw [if_neg h]
      exact (ih.cons n).trans (List.Perm.swap m n rest)

theorem sortDescByPin_perm (l : List Meta) : List.Perm (sortDescByPin l) l := by
  induction l with
  | nil => exact List.Perm.refl _
  | cons m rest ih =>
    exact (insertDesc_perm m (sortDescByPin rest)).trans (ih.cons m)

theorem mem_insertDesc {x m : Meta} {l : List Meta} :
    x ∈ insertDesc m l ↔ x = m ∨ x ∈ l := by
  rw [(insertDesc_perm m l).mem_iff, List.mem_cons]

theorem pairwise_insertDesc {m : Meta} {l : List Meta}
    (h : l.Pairwise (fun a b => pinKeyLe b a = true)) :
    (insertDesc m l).Pairwise (fun a b => pinKeyLe b a = true) := by
  induction l with
  | nil => simp [insertDesc]
  | cons n rest ih =>
    rw [List.pairwise_cons] at h
    obtain ⟨hn, hrest⟩ := h
    rw [insertDesc]
    by_cases hc : pinKeyLe n m = true
    · rw [if_pos hc]
      refine List.pairwise_cons.mpr ⟨?_, List.pairwise_cons.mpr ⟨hn, hrest⟩⟩
      intro y hy
      rcases List.mem_cons.mp hy with rfl | hy'
      · exact hc
      · exact pinKeyLe_trans (hn y hy') hc
    · rw [if_neg hc]
      refine List.pairwise_cons.mpr ⟨?_, ih hrest⟩
      intro y hy
      rcases mem_insertDesc.mp hy with rfl | hy'
      · rcases pinKeyLe_total n y with h' | h'
        · exact absurd h' hc
        · exact h'
      · exact hn y hy'

theorem pairwise_sortDescByPin (l : List Meta) :
    (sortDescByPin l).Pairwise (fun a b => pinKeyLe b a = true) := by
  induction l with
  | nil => simp [sortDescByPin]
  | cons m rest ih => exact pairwise_insertDesc ih

/-- Characterization of a successful bucket selection: the selected Meta is a
member of the bucket and is maximal for the Python sort key. -/
theorem selectInBucket_spec {p : Option Platform} {w : CondaPip}
    {metas : List Meta} {sel : Meta} {ws : List ConflictWarning}
    (h : selectInBucket p w metas = some (sel, ws)) :
    sel ∈ metas ∧ ∀ x ∈ metas, pinKeyLe x sel = true := by
  match metas with
  | [] => exact absurd h (by simp [selectInBucket])
  | [m] =>
    simp only [selectInBucket, Option.some.injEq, Prod.mk.injEq] at h
    obtain ⟨rfl, rfl⟩ := h
    exact ⟨List.mem_singleton.mpr rfl, fun x hx => by
      rw [List.mem_singleton.mp hx]; exact pinKeyLe_refl _⟩
  | m₀ :: m₁ :: rest =>
    have hperm := sortDescByPin_perm (m₀ :: m₁ :: rest)
    have hpw := pairwise_sortDescByPin (m₀ :: m₁ :: rest)
    cases hs : sortDescByPin (m₀ :: m₁ :: rest) with
    | nil =>
      have := hperm.length_eq
      rw [hs] at this
      simp at this
    | cons s srest =>
      rw [hs] at hperm hpw
      simp only [selectInBucket, hs, Option.some.injEq, Prod.mk.injEq] at h
      obtain ⟨rfl, _⟩ := h
      rw [List.pairwise_cons] at hpw
      refine ⟨hperm.mem_iff.mp (List.mem_cons_self _ _), fun x hx => ?_⟩
      rcases List.mem_cons.mp (hperm.mem_iff.mpr hx) with rfl | hx'
      · exact pinKeyLe_refl _
      · exact hpw.1 x hx'


/-- A nonempty string is truthy in Python. -/
theorem pyTruthyPin_some_of_ne {s : String} (hs : s ≠ "") :
    pyTruthyPin (some s) = true := by
  cases s with
  | mk data =>
    cases data with
    | nil => exact absurd rfl hs
    | cons c cs => rfl

/-! ## Claim C9 -/

/-- C9: the Platform Selector passes a one-element `(platform, ecosystem)`
bucket through unchanged with no warning; in particular re-running it on its
own single-element output bucket changes nothing. -/
theorem selector_singleton_bucket_identity (p : Option Platform)
    (w : CondaPip) (m : Meta) :
    selectInBucket p w [m] = some (m, []) := rfl

/-! ## Claim C4 -/

/-- C4: for a bucket with more than one Declaration, the selected Declaration
is a member of the bucket and is maximal for the Python sort key
`(pin is not None, pin)`; hence a pinned Declaration is always selected over
an unpinned one, and the selected pin is lexicographically greatest among the
pins present. -/
theorem selector_selects_max_by_pin_key (p : Option Platform) (w : CondaPip)
    (metas : List Meta) (_hlen : 1 < metas.length)
    (sel : Meta) (ws : List ConflictWarning)
    (h : selectInBucket p w metas = some (sel, ws)) :
    sel ∈ metas ∧
    (∀ x ∈ metas, pinKeyLe x sel = true) ∧
    (∀ x ∈ metas, x.pin ≠ none → sel.pin ≠ none) ∧
    (∀ x ∈ metas, ∀ t s, x.pin = some t → sel.pin = some s → t ≤ s) := by
  obtain ⟨hmem, hmax⟩ := selectInBucket_spec h
  refine ⟨hmem, hmax, ?_, ?_⟩
  · intro x hx hxpin
    have hle := hmax x hx
    cases hxp : x.pin with
    | none => exact absurd hxp hxpin
    | some t =>
      cases hsp : sel.pin with
      | none => rw [pinKeyLe, hxp, hsp] at hle; exact absurd hle (by simp)
      | some s => exact fun hn => Option.noConfusion hn
  · intro x hx t s hxp hsp
    have hle := hmax x hx
    rw [pinKeyLe, hxp, hsp] at hle
    exact of_decide_eq_true hle

/-- Witness for C4 at a concrete two-element bucket. -/
theorem selector_selects_max_by_pin_key_witness :
    1 < ([{ name := "n", which := CondaPip.conda, pin := none, platforms := none },
          { name := "n", which := CondaPip.conda, pin := some ">=1", platforms := none }] : List Meta).length ∧
    ({ name := "n", which := CondaPip.conda, pin := some ">=1", platforms := none } : Meta) ∈
      [{ name := "n", which := CondaPip.conda, pin := none, platforms := none },
       { name := "n", which := CondaPip.conda, pin := some ">=1", platforms := none }] := by
  have h := selector_selects_max_by_pin_key none CondaPip.conda
    [{ name := "n", which := CondaPip.conda, pin := none, platforms := none },
     { name := "n", which := CondaPip.conda, pin := some ">=1", platforms := none }]
    (by decide)
    { name := "n", which := CondaPip.conda, pin := some ">=1", platforms := none }
    [ConflictWarning.platformConflict none
      { name := "n", which := CondaPip.conda, pin := some ">=1", platforms := none }
      CondaPip.conda
      [{ name := "n", which := CondaPip.conda, pin := none, platforms := none }]]
    rfl
  exact ⟨by decide, h.1⟩


/-! ## Claim C3 -/

/-- C3 as stated is refuted: on input `pkg -> [conda meta pinned "=1",
pip meta unpinned]` the Cross-Ecosystem Reconciler drops the pip Declaration
(the conda pin wins) without emitting any warning, so that input Declaration
appears in no surviving slot and is named in no discard warning. -/
theorem resolve_conflicts_accounting_counterexample :
    (resolveConflicts
        [("pkg",
          [{ name := "pkg", which := CondaPip.conda, pin := some "=1", platforms := none },
           { name := "pkg", which := CondaPip.pip, pin := none, platforms := none }])]).map
      (fun r =>
        (survivingSlotCount
            { name := "pkg", which := CondaPip.pip, pin := none, platforms := none } r.1,
         warningsNaming
            { name := "pkg", which := CondaPip.pip, pin := none, platforms := none } r.2)) =
      some (0, 0) := rfl

/-- C3 amended: the accounting dichotomy holds within each
`(platform, ecosystem)` bucket of the Platform Selector — every Declaration
of the bucket either equals the selected one (and is named in no warning of
that bucket) or is named in exactly one discard warning, never both and never
neither. -/
theorem selector_bucket_accounting (p : Option Platform) (w : CondaPip)
    (metas : List Meta) (sel : Meta) (ws : List ConflictWarning)
    (h : selectInBucket p w metas = some (sel, ws)) :
    ∀ m ∈ metas,
      (m = sel ∧ warningsNaming m ws = 0) ∨
      (m ≠ sel ∧ warningsNaming m ws = 1) := by
  match metas with
  | [] => exact absurd h (by simp [selectInBucket])
  | [m₀] =>
    simp only [selectInBucket, Option.some.injEq, Prod.mk.injEq] at h
    obtain ⟨rfl, rfl⟩ := h
    intro m hm
    rw [List.mem_singleton.mp hm]
    exact Or.inl ⟨rfl, rfl⟩
  | m₀ :: m₁ :: rest =>
    have hperm := sortDescByPin_perm (m₀ :: m₁ :: rest)
    cases hs : sortDescByPin (m₀ :: m₁ :: rest) with
    | nil =>
      have hlen := hperm.length_eq
      rw [hs] at hlen
      simp at hlen
    | cons s srest =>
      rw [hs] at hperm
      simp only [selectInBucket, hs, Option.some.injEq, Prod.mk.injEq] at h
      obtain ⟨rfl, rfl⟩ := h
      intro m hm
      by_cases hms : m = s
      · subst hms
        refine Or.inl ⟨rfl, ?_⟩
        by_cases hd : (srest.filter (fun x => x != m)).isEmpty = true
        · rw [if_pos hd]
          rfl
        · rw [if_neg hd]
          simp only [warningsNaming, List.countP_cons, List.countP_nil]
          have hnot : m ∉ srest.filter (fun x => x != m) := by
            intro hmem
            have := (List.mem_filter.mp hmem).2
            simp at this
          simp [hnot]
      · refine Or.inr ⟨hms, ?_⟩
        have hm' : m ∈ s :: srest := hperm.mem_iff.mpr hm
        have hmem : m ∈ srest.filter (fun x => x != s) := by
          rcases List.mem_cons.mp hm' with rfl | hm''
          · exact absurd rfl hms
          · exact List.mem_filter.mpr ⟨hm'', by simp [hms]⟩
        have hd : (srest.filter (fun x => x != s)).isEmpty = false := by
          cases hf : srest.filter (fun x => x != s) with
          | nil => rw [hf] at hmem; exact absurd hmem (List.not_mem_nil m)
          | cons a l => rfl
        rw [if_neg (by simp [hd])]
        simp only [warningsNaming, List.countP_cons, List.countP_nil]
        simp [hmem]

/-- Witness for the amended C3 at a concrete two-element bucket. -/
theorem selector_bucket_accounting_witness :
    (({ name := "n", which := CondaPip.conda, pin := none, platforms := none } : Meta) =
        { name := "n", which := CondaPip.conda, pin := some ">=2", platforms := none } ∧
      warningsNaming { name := "n", which := CondaPip.conda, pin := none, platforms := none }
        [ConflictWarning.platformConflict none
          { name := "n", which := CondaPip.conda, pin := some ">=2", platforms := none }
          CondaPip.conda
          [{ name := "n", which := CondaPip.conda, pin := none, platforms := none }]] = 0) ∨
    (({ name := "n", which := CondaPip.conda, pin := none, platforms := none } : Meta) ≠
        { name := "n", which := CondaPip.conda, pin := some ">=2", platforms := none } ∧
      warningsNaming { name := "n", which := CondaPip.conda, pin := none, platforms := none }
        [ConflictWarning.platformConflict none
          { name := "n", which := CondaPip.conda, pin := some ">=2", platforms := none }
          CondaPip.conda
          [{ name := "n", which := CondaPip.conda, pin := none, platforms := none }]] = 1) := by
  exact selector_bucket_accounting none CondaPip.conda
    [{ name := "n", which := CondaPip.conda, pin := none, platforms := none },
     { name := "n", which := CondaPip.conda, pin := some ">=2", platforms := none }]
    { name := "n", which := CondaPip.conda, pin := some ">=2", platforms := none }
    [ConflictWarning.platformConflict none
      { name := "n", which := CondaPip.conda, pin := some ">=2", platforms := none }
      CondaPip.conda
      [{ name := "n", which := CondaPip.conda, pin := none, platforms := none }]]
    rfl
    { name := "n", which := CondaPip.conda, pin := none, platforms := none }
    (by decide)


/-- Unfolding of the Reconciler on a two-entry conda/pip source map. -/
theorem resolveCondaPipConflicts_both (cm pm : Meta) :
    resolveCondaPipConflicts [(CondaPip.conda, cm), (CondaPip.pip, pm)] =
      if pyTruthyPin cm.pin && !pyTruthyPin pm.pin then
        ([(CondaPip.conda, cm)], [])
      else if pyTruthyPin pm.pin && !pyTruthyPin cm.pin then
        ([(CondaPip.pip, pm)], [])
      else if cm.pin == pm.pin then
        ([(CondaPip.conda, cm), (CondaPip.pip, pm)], [])
      else
        ([(CondaPip.conda, cm), (CondaPip.pip, pm)],
         [ConflictWarning.pinningConflict cm.pin pm.pin]) := rfl

/-! ## Claim C10 -/

/-- C10: a Declaration whose pin is the empty string is "pinned" for the
Platform Selector (sort key `pin is not None`), so it is selected over a
null-pin Declaration in the same bucket whichever order they appear in; but
it is "unpinned" for the Reconciler (Python truthiness): against a non-empty
non-null pin only the latter is kept, and against a null pin the two pins
compare unequal, so both are kept with a conflict warning. -/
theorem empty_pin_selector_vs_reconciler (p : Option Platform) (w : CondaPip)
    (a b c : Meta) (s : String)
    (ha : a.pin = some "") (hb : b.pin = some s) (hs : s ≠ "")
    (hc : c.pin = none) :
    (selectInBucket p w [a, c]).map Prod.fst = some a ∧
    (selectInBucket p w [c, a]).map Prod.fst = some a ∧
    resolveCondaPipConflicts [(CondaPip.conda, a), (CondaPip.pip, b)] =
      ([(CondaPip.pip, b)], []) ∧
    resolveCondaPipConflicts [(CondaPip.conda, b), (CondaPip.pip, a)] =
      ([(CondaPip.conda, b)], []) ∧
    resolveCondaPipConflicts [(CondaPip.conda, a), (CondaPip.pip, c)] =
      ([(CondaPip.conda, a), (CondaPip.pip, c)],
       [ConflictWarning.pinningConflict (some "") none]) := by
  have htb : pyTruthyPin b.pin = true := by rw [hb]; exact pyTruthyPin_some_of_ne hs
  have hta : pyTruthyPin a.pin = false := by rw [ha]; rfl
  have htc : pyTruthyPin c.pin = false := by rw [hc]; rfl
  refine ⟨?_, ?_, ?_, ?_, ?_⟩
  · simp [selectInBucket, sortDescByPin, insertDesc, pinKeyLe, ha, hc]
  · simp [selectInBucket, sortDescByPin, insertDesc, pinKeyLe, ha, hc]
  · rw [resolveCondaPipConflicts_both, if_neg (by simp [hta]),
      if_pos (by simp [htb, hta])]
  · rw [resolveCondaPipConflicts_both, if_pos (by simp [htb, hta])]
  · rw [resolveCondaPipConflicts_both, if_neg (by simp [hta]),
      if_neg (by simp [htc]), if_neg (by simp [ha, hc]), ha, hc]

/-- Witness for C10 at concrete Metas. -/
theorem empty_pin_selector_vs_reconciler_witness :
    (selectInBucket none CondaPip.conda
        [{ name := "r", which := CondaPip.conda, pin := some "", platforms := none },
         { name := "r", which := CondaPip.conda, pin := none, platforms := none }]).map Prod.fst =
      some { name := "r", which := CondaPip.conda, pin := some "", platforms := none } ∧
    (selectInBucket none CondaPip.conda
        [{ name := "r", which := CondaPip.conda, pin := none, platforms := none },
         { name := "r", which := CondaPip.conda, pin := some "", platforms := none }]).map Prod.fst =
      some { name := "r", which := CondaPip.conda, pin := some "", platforms := none } ∧
    resolveCondaPipConflicts
        [(CondaPip.conda, { name := "r", which := CondaPip.conda, pin := some "", platforms := none }),
         (CondaPip.pip, { name := "r", which := CondaPip.pip, pin := some "=2", platforms := none })] =
      ([(CondaPip.pip, { name := "r", which := CondaPip.pip, pin := some "=2", platforms := none })], []) ∧
    resolveCondaPipConflicts
        [(CondaPip.conda, { name := "r", which := CondaPip.pip, pin := some "=2", platforms := none }),
         (CondaPip.pip, { name := "r", which := CondaPip.conda, pin := some "", platforms := none })] =
      ([(CondaPip.conda, { name := "r", which := CondaPip.pip, pin := some "=2", platforms := none })], []) ∧
    resolveCondaPipConflicts
        [(CondaPip.conda, { name := "r", which := CondaPip.conda, pin := some "", platforms := none }),
         (CondaPip.pip, { name := "r", which := CondaPip.conda, pin := none, platforms := none })] =
      ([(CondaPip.conda, { name := "r", which := CondaPip.conda, pin := some "", platforms := none }),
        (CondaPip.pip, { name := "r", which := CondaPip.conda, pin := none, platforms := none })],
       [ConflictWarning.pinningConflict (some "") none]) := by
  exact empty_pin_selector_vs_reconciler none CondaPip.conda
    { name := "r", which := CondaPip.conda, pin := some "", platforms := none }
    { name := "r", which := CondaPip.pip, pin := some "=2", platforms := none }
    { name := "r", which := CondaPip.conda, pin := none, platforms := none }
    "=2" rfl rfl (by decide) rfl

/-! ## Claim C5 -/

/-- C5 as stated is refuted: with a conda Declaration pinned `""` (non-null)
and an unpinned pip Declaration, exactly one of the two pins is non-null, yet
the Reconciler keeps both Declarations (and emits a conflict warning) instead
of keeping only the pinned one, because it tests Python truthiness rather
than `is not None`. -/
theorem reconciler_nonnull_pin_counterexample :
    (({ name := "q", which := CondaPip.conda, pin := some "", platforms := none } : Meta).pin ≠
        none) ∧
    (({ name := "q", which := CondaPip.pip, pin := none, platforms := none } : Meta).pin = none) ∧
    resolveCondaPipConflicts
        [(CondaPip.conda, { name := "q", which := CondaPip.conda, pin := some "", platforms := none }),
         (CondaPip.pip, { name := "q", which := CondaPip.pip, pin := none, platforms := none })] =
      ([(CondaPip.conda, { name := "q", which := CondaPip.conda, pin := some "", platforms := none }),
        (CondaPip.pip, { name := "q", which := CondaPip.pip, pin := none, platforms := none })],
       [ConflictWarning.pinningConflict (some "") none]) :=
  ⟨by decide, rfl, rfl⟩

/-- C5 amended: if either ecosystem has no entry the mapping is returned
unchanged (with no warning); if both are present and exactly one of the two
Declarations has a truthy pin — non-null and non-empty — only that one is
kept. -/
theorem reconciler_missing_entry_and_truthy_pin_wins (sources : SourceMap) :
    ((alLookup CondaPip.conda sources = none ∨ alLookup CondaPip.pip sources = none) →
      resolveCondaPipConflicts sources = (sources, [])) ∧
    (∀ cm pm, alLookup CondaPip.conda sources = some cm →
      alLookup CondaPip.pip sources = some pm →
      (pyTruthyPin cm.pin = true → pyTruthyPin pm.pin = false →
        resolveCondaPipConflicts sources = ([(CondaPip.conda, cm)], [])) ∧
      (pyTruthyPin pm.pin = true → pyTruthyPin cm.pin = false →
        resolveCondaPipConflicts sources = ([(CondaPip.pip, pm)], []))) := by
  constructor
  · intro hmiss
    unfold resolveCondaPipConflicts
    rcases hmiss with hm | hm
    · rw [hm]
    · rw [hm]
      cases alLookup CondaPip.conda sources <;> rfl
  · intro cm pm hcm hpm
    constructor
    · intro hct hpf
      unfold resolveCondaPipConflicts
      rw [hcm, hpm]
      simp [hct, hpf]
    · intro hpt hcf
      unfold resolveCondaPipConflicts
      rw [hcm, hpm]
      simp [hpt, hcf]

/-- Witness for the amended C5: a pinned conda Declaration wins over an
unpinned pip Declaration. -/
theorem reconciler_missing_entry_and_truthy_pin_wins_witness :
    resolveCondaPipConflicts
        [(CondaPip.conda, { name := "q", which := CondaPip.conda, pin := some "=2", platforms := none }),
         (CondaPip.pip, { name := "q", which := CondaPip.pip, pin := none, platforms := none })] =
      ([(CondaPip.conda, { name := "q", which := CondaPip.conda, pin := some "=2", platforms := none })],
       []) := by
  exact ((reconciler_missing_entry_and_truthy_pin_wins
      [(CondaPip.conda, { name := "q", which := CondaPip.conda, pin := some "=2", platforms := none }),
       (CondaPip.pip, { name := "q", which := CondaPip.pip, pin := none, platforms := none })]).2
    { name := "q", which := CondaPip.conda, pin := some "=2", platforms := none }
    { name := "q", which := CondaPip.pip, pin := none, platforms := none }
    rfl rfl).1 rfl rfl


/-! ## Claim C6 -/

/-- C6 as stated is refuted: a conda Declaration pinned `""` and a pip
Declaration pinned `"=2"` have non-null and different pins, yet the
Reconciler keeps only the pip Declaration (and emits no warning) instead of
keeping both with a conflict warning, because `""` is falsy in Python. -/
theorem reconciler_different_pins_counterexample :
    (({ name := "t", which := CondaPip.conda, pin := some "", platforms := none } : Meta).pin ≠
        none) ∧
    (({ name := "t", which := CondaPip.pip, pin := some "=2", platforms := none } : Meta).pin ≠
        none) ∧
    (({ name := "t", which := CondaPip.conda, pin := some "", platforms := none } : Meta).pin ≠
      ({ name := "t", which := CondaPip.pip, pin := some "=2", platforms := none } : Meta).pin) ∧
    resolveCondaPipConflicts
        [(CondaPip.conda, { name := "t", which := CondaPip.conda, pin := some "", platforms := none }),
         (CondaPip.pip, { name := "t", which := CondaPip.pip, pin := some "=2", platforms := none })] =
      ([(CondaPip.pip, { name := "t", which := CondaPip.pip, pin := some "=2", platforms := none })],
       []) :=
  ⟨by decide, by decide, by decide, rfl⟩

/-- C6 amended: when the two selected Declarations carry equal pins
(including both null) the Reconciler keeps both with no warning, and does so
for either assignment of the Declarations to the ecosystems; when both pins
are truthy (non-null and non-empty) and different, both are kept together
with one conflict warning.  The Reconciler is a total function — it never
raises. -/
theorem reconciler_equal_pins_keep_both (cm pm : Meta) :
    (cm.pin = pm.pin →
      resolveCondaPipConflicts [(CondaPip.conda, cm), (CondaPip.pip, pm)] =
        ([(CondaPip.conda, cm), (CondaPip.pip, pm)], []) ∧
      resolveCondaPipConflicts [(CondaPip.conda, pm), (CondaPip.pip, cm)] =
        ([(CondaPip.conda, pm), (CondaPip.pip, cm)], [])) ∧
    (pyTruthyPin cm.pin = true → pyTruthyPin pm.pin = true → cm.pin ≠ pm.pin →
      resolveCondaPipConflicts [(CondaPip.conda, cm), (CondaPip.pip, pm)] =
        ([(CondaPip.conda, cm), (CondaPip.pip, pm)],
         [ConflictWarning.pinningConflict cm.pin pm.pin])) := by
  constructor
  · intro heq
    constructor
    · rw [resolveCondaPipConflicts_both, if_neg (by simp [heq]),
        if_neg (by simp [heq]), if_pos (by simp [heq])]
    · rw [resolveCondaPipConflicts_both, if_neg (by simp [heq]),
        if_neg (by simp [heq]), if_pos (by simp [heq])]
  · intro hct hpt hne
    rw [resolveCondaPipConflicts_both, if_neg (by simp [hct, hpt]),
      if_neg (by simp [hct, hpt]), if_neg (by simp [hne])]

/-- Witness for the amended C6: both cases at concrete Declarations. -/
theorem reconciler_equal_pins_keep_both_witness :
    (resolveCondaPipConflicts
        [(CondaPip.conda, { name := "t", which := CondaPip.conda, pin := some "=1", platforms := none }),
         (CondaPip.pip, { name := "t", which := CondaPip.pip, pin := some "=1", platforms := none })] =
      ([(CondaPip.conda, { name := "t", which := CondaPip.conda, pin := some "=1", platforms := none }),
        (CondaPip.pip, { name := "t", which := CondaPip.pip, pin := some "=1", platforms := none })],
       [])) ∧
    (resolveCondaPipConflicts
        [(CondaPip.conda, { name := "t", which := CondaPip.conda, pin := some ">=1", platforms := none }),
         (CondaPip.pip, { name := "t", which := CondaPip.conda, pin := some "<1", platforms := none })] =
      ([(CondaPip.conda, { name := "t", which := CondaPip.conda, pin := some ">=1", platforms := none }),
        (CondaPip.pip, { name := "t", which := CondaPip.conda, pin := some "<1", platforms := none })],
       [ConflictWarning.pinningConflict (some ">=1") (some "<1")])) := by
  constructor
  · exact ((reconciler_equal_pins_keep_both
      { name := "t", which := CondaPip.conda, pin := some "=1", platforms := none }
      { name := "t", which := CondaPip.pip, pin := some "=1", platforms := none }).1 rfl).1
  · exact (reconciler_equal_pins_keep_both
      { name := "t", which := CondaPip.conda, pin := some ">=1", platforms := none }
      { name := "t", which := CondaPip.conda, pin := some "<1", platforms := none }).2
      rfl rfl (by decide)


/-! ## Association-list lemmas for the Grouper -/

theorem alLookup_alUpd [BEq α] [LawfulBEq α] (k k' : α) (f : β → β) (d : β)
    (l : List (α × β)) :
    alLookup k' (alUpd k f d l) =
      if k' == k then some (f ((alLookup k l).getD d)) else alLookup k' l := by
  induction l with
  | nil =>
    by_cases h : k' = k
    · subst h
      simp [alUpd, alLookup]
    · have hb : (k == k') = false := beq_eq_false_iff_ne.mpr (Ne.symm h)
      have hb' : (k' == k) = false := beq_eq_false_iff_ne.mpr h
      simp [alUpd, alLookup, hb, hb']
  | cons e rest ih =>
    obtain ⟨a, v⟩ := e
    by_cases hak : a = k
    · subst hak
      by_cases h : k' = a
      · subst h
        simp [alUpd, alLookup]
      · have hb : (a == k') = false := beq_eq_false_iff_ne.mpr (Ne.symm h)
        have hb' : (k' == a) = false := beq_eq_false_iff_ne.mpr h
        simp [alUpd, alLookup, hb, hb']
    · have hb : (a == k) = false := beq_eq_false_iff_ne.mpr hak
      by_cases h : k' = a
      · subst h
        have hk : (k' == k) = false :=
          beq_eq_false_iff_ne.mpr (fun hc => hak (hc ▸ rfl))
        simp [alUpd, alLookup, hb, hk, ih]
      · have hb' : (a == k') = false := beq_eq_false_iff_ne.mpr (Ne.symm h)
        simp [alUpd, alLookup, hb, hb', ih]

theorem bucketOf_addMetaForPlatform (g : Grouped) (m : Meta)
    (p q : Option Platform) (w : CondaPip) :
    bucketOf (addMetaForPlatform g m p) q w =
      if q = p ∧ w = m.which then bucketOf g q w ++ [m] else bucketOf g q w := by
  unfold bucketOf addMetaForPlatform
  rw [alLookup_alUpd]
  by_cases hq : q = p
  · subst hq
    rw [if_pos (beq_iff_eq.mpr rfl), Option.getD_some, alLookup_alUpd]
    by_cases hw : w = m.which
    · subst hw
      rw [if_pos (beq_iff_eq.mpr rfl), if_pos ⟨rfl, rfl⟩, Option.getD_some]
    · rw [if_neg (by simp [hw]), if_neg (fun hc => hw hc.2)]
  · rw [if_neg (by simp [hq]), if_neg (fun hc => hq hc.1)]

theorem bucketOf_foldl_platforms (ps : List (Option Platform)) (hnd : ps.Nodup)
    (g : Grouped) (m : Meta) (q : Option Platform) (w : CondaPip) :
    bucketOf (ps.foldl (fun g' p => addMetaForPlatform g' m p) g) q w =
      bucketOf g q w ++ (if w = m.which ∧ q ∈ ps then [m] else []) := by
  induction ps generalizing g with
  | nil => simp
  | cons p ps' ih =>
    have hnd' := List.nodup_cons.mp hnd
    rw [List.foldl_cons, ih hnd'.2, bucketOf_addMetaForPlatform]
    by_cases h1 : q = p ∧ w = m.which
    · rw [if_pos h1]
      have hq : q ∉ ps' := h1.1 ▸ hnd'.1
      rw [if_neg (fun hc => hq hc.2),
        if_pos ⟨h1.2, h1.1 ▸ List.mem_cons_self p ps'⟩, List.append_nil]
    · rw [if_neg h1]
      congr 1
      by_cases h2 : w = m.which ∧ q ∈ ps'
      · rw [if_pos h2, if_pos ⟨h2.1, List.mem_cons_of_mem p h2.2⟩]
      · rw [if_neg h2, if_neg ?_]
        intro hc
        rcases List.mem_cons.mp hc.2 with rfl | hq'
        · exact h1 ⟨rfl, hc.1⟩
        · exact h2 ⟨hc.1, hq'⟩

theorem bucketOf_addMeta (g : Grouped) (m : Meta)
    (hnd : (platformsOrNull m).Nodup) (q : Option Platform) (w : CondaPip) :
    bucketOf (addMeta g m) q w =
      bucketOf g q w ++ (if w = m.which ∧ q ∈ platformsOrNull m then [m] else []) :=
  bucketOf_foldl_platforms (platformsOrNull m) hnd g m q w

theorem bucketOf_foldl_addMeta (metas : List Meta) (g : Grouped)
    (hnd : ∀ m ∈ metas, (platformsOrNull m).Nodup)
    (q : Option Platform) (w : CondaPip) :
    bucketOf (metas.foldl addMeta g) q w =
      bucketOf g q w ++
        metas.filter (fun m => decide (w = m.which) && decide (q ∈ platformsOrNull m)) := by
  induction metas generalizing g with
  | nil => simp
  | cons m rest ih =>
    rw [List.foldl_cons,
      ih (addMeta g m) (fun x hx => hnd x (List.mem_cons_of_mem m hx)),
      bucketOf_addMeta g m (hnd m (List.mem_cons_self m rest)) q w,
      List.append_assoc, List.filter_cons]
    congr 1
    by_cases hm : w = m.which ∧ q ∈ platformsOrNull m
    · rw [if_pos hm, if_pos (by simp [hm.1, hm.2])]
      rfl
    · rw [if_neg hm, if_neg (by simpa using hm)]
      rfl

/-! ## Claim C7 -/

/-- C7: each `(platform, ecosystem)` bucket of the Grouper is exactly the
input order-preserving sublist of Declarations whose ecosystem matches and
whose applicable platform set (null treated as `[null]`) contains that
platform; hence a null-platform Declaration lands in exactly the null bucket
for its ecosystem, a Declaration with `k` applicable platforms lands in
exactly those `k` buckets, occurrences are appended without deduplication,
and every input Declaration is preserved. -/
theorem grouper_bucket_characterization (metas : List Meta)
    (hnd : ∀ m ∈ metas, (platformsOrNull m).Nodup) :
    (∀ q w, bucketOf (groupMetas metas) q w =
        metas.filter (fun m => decide (w = m.which) && decide (q ∈ platformsOrNull m))) ∧
    (∀ m ∈ metas, ∀ q w,
        (m ∈ bucketOf (groupMetas metas) q w ↔ w = m.which ∧ q ∈ platformsOrNull m)) := by
  have hchar : ∀ q w, bucketOf (groupMetas metas) q w =
      metas.filter (fun m => decide (w = m.which) && decide (q ∈ platformsOrNull m)) := by
    intro q w
    have := bucketOf_foldl_addMeta metas [] hnd q w
    rwa [show bucketOf [] q w = [] from rfl, List.nil_append] at this
  refine ⟨hchar, fun m hm q w => ?_⟩
  rw [hchar q w]
  constructor
  · intro hmem
    have := (List.mem_filter.mp hmem).2
    simpa using this
  · intro hcond
    exact List.mem_filter.mpr ⟨hm, by simp [hcond.1, hcond.2]⟩

/-- Witness for C7: a two-platform conda Declaration and an all-platform pip
Declaration are grouped into exactly their buckets. -/
theorem grouper_bucket_characterization_witness :
    bucketOf
        (groupMetas
          [{ name := "a", which := CondaPip.conda, pin := some ">=1",
             platforms := some ["linux-64", "osx-64"] },
           { name := "b", which := CondaPip.pip, pin := none, platforms := none }])
        (some "linux-64") CondaPip.conda =
      [{ name := "a", which := CondaPip.conda, pin := some ">=1",
         platforms := some ["linux-64", "osx-64"] }] := by
  rw [(grouper_bucket_characterization
    [{ name := "a", which := CondaPip.conda, pin := some ">=1",
       platforms := some ["linux-64", "osx-64"] },
     { name := "b", which := CondaPip.pip, pin := none, platforms := none }]
    (by decide)).1 (some "linux-64") CondaPip.conda]
  decide


/-! ## Scan lemmas for the Constraint Combiner -/

theorem exactScan_eq_none_iff (e : String) (n : Int) (l : List String) :
    exactScan e n l = none ↔ ∀ p ∈ l, p = e ∨ exactConflict n p = false := by
  induction l with
  | nil => simp [exactScan]
  | cons p rest ih =>
    by_cases hc : p ≠ e ∧ exactConflict n p = true
    · have hb : (p != e && exactConflict n p) = true := by
        simp [bne_iff_ne, hc.1, hc.2]
      rw [exactScan, if_pos hb]
      constructor
      · intro h
        exact Option.noConfusion h
      · intro h
        rcases h p (List.mem_cons_self p rest) with he | hf
        · exact absurd he hc.1
        · rw [hc.2] at hf
          exact Bool.noConfusion hf
    · have hp : p = e ∨ exactConflict n p = false := by
        rcases not_and_or.mp hc with h1 | h2
        · exact Or.inl (not_not.mp h1)
        · refine Or.inr ?_
          revert h2
          cases exactConflict n p <;> simp
      rw [exactScan,
        if_neg (fun hbt => hc (by simpa [bne_iff_ne] using hbt)), ih]
      constructor
      · intro h x hx
        rcases List.mem_cons.mp hx with rfl | hx'
        · exact hp
        · exact h x hx'
      · intro h x hx
        exact h x (List.mem_cons_of_mem p hx)

theorem exactScan_eq_some (e : String) (n : Int) (l : List String) (q : String)
    (h : exactScan e n l = some q) :
    q ∈ l ∧ q ≠ e ∧ exactConflict n q = true := by
  induction l with
  | nil => exact Option.noConfusion h
  | cons p rest ih =>
    by_cases hb : (p != e && exactConflict n p) = true
    · rw [exactScan, if_pos hb] at h
      have hpq : p = q := by simpa using h
      subst hpq
      have hb' : p ≠ e ∧ exactConflict n p = true := by
        simpa [bne_iff_ne] using hb
      exact ⟨List.mem_cons_self p rest, hb'.1, hb'.2⟩
    · rw [exactScan, if_neg hb] at h
      obtain ⟨hmem, hrest⟩ := ih h
      exact ⟨List.mem_cons_of_mem p hmem, hrest⟩

/-! ## Claim C1 -/

/-- C1 as stated is refuted: `combine(["=2", "<=2"])` raises a contradiction
error although the exact value 2 satisfies the bound `<=2`; the code compares
`exact_version >= ver` even for the inclusive operator. -/
theorem combiner_exact_pin_counterexample :
    boundSatisfiedBy 2 "<=2" = true ∧
    exactVersionOf "=2" = 2 ∧
    combineVersionPinnings ["=2", "<=2"] =
      .error "Contradictory version pinnings found: =2 and <=2" :=
  ⟨by decide, by decide, rfl⟩

/-- C1 amended: when the valid pins contain an exact pin (the first being
`e`, of value `N`), `combine_version_pinnings` raises a contradiction error
iff some other valid pin parses to an upper (`<`/`<=`) bound with threshold
≤ N or to a lower (`>`/`>=`) bound with threshold ≥ N — for strict bounds
exactly "N violates the bound", but an inclusive bound with threshold equal
to N is also flagged although N satisfies it; otherwise the first exact pin
is returned alone, all other pins ignored. -/
theorem combiner_exact_pin_priority (pinnings : List String)
    (e : String) (es : List String)
    (he : exactPinningsOf pinnings = e :: es) :
    ((∃ msg, combineVersionPinnings pinnings = .error msg) ↔
      ∃ p ∈ validPinningsOf pinnings, p ≠ e ∧
        exactConflict (exactVersionOf e) p = true) ∧
    ((∀ p ∈ validPinningsOf pinnings, p = e ∨
        exactConflict (exactVersionOf e) p = false) →
      combineVersionPinnings pinnings = .ok e) := by
  obtain ⟨v, vs, hv⟩ : ∃ v vs, validPinningsOf pinnings = v :: vs := by
    cases hval : validPinningsOf pinnings with
    | nil =>
      rw [exactPinningsOf, hval] at he
      exact absurd he (by simp)
    | cons v vs => exact ⟨v, vs, rfl⟩
  have hcomb : combineVersionPinnings pinnings =
      match exactScan e (exactVersionOf e) (validPinningsOf pinnings) with
      | some otherPin =>
        .error ("Contradictory version pinnings found: " ++ e ++ " and " ++ otherPin)
      | none => .ok e := by
    unfold combineVersionPinnings
    rw [hv, he]
  constructor
  · constructor
    · intro ⟨msg, hmsg⟩
      cases hscan : exactScan e (exactVersionOf e) (validPinningsOf pinnings) with
      | none =>
        rw [hcomb, hscan] at hmsg
        exact Except.noConfusion hmsg
      | some q =>
        obtain ⟨hqmem, hqe, hqc⟩ := exactScan_eq_some _ _ _ _ hscan
        exact ⟨q, hqmem, hqe, hqc⟩
    · intro ⟨p, hpmem, hpe, hpc⟩
      cases hscan : exactScan e (exactVersionOf e) (validPinningsOf pinnings) with
      | none =>
        rcases (exactScan_eq_none_iff _ _ _).mp hscan p hpmem with h1 | h2
        · exact absurd h1 hpe
        · rw [hpc] at h2
          exact Bool.noConfusion h2
      | some q =>
        rw [hcomb, hscan]
        exact ⟨_, rfl⟩
  · intro hall
    have hscan : exactScan e (exactVersionOf e) (validPinningsOf pinnings) = none :=
      (exactScan_eq_none_iff _ _ _).mpr hall
    rw [hcomb, hscan]

/-- Witness for the amended C1: `combine(["=2", "<5"]) = "=2"`. -/
theorem combiner_exact_pin_priority_witness :
    combineVersionPinnings ["=2", "<5"] = .ok "=2" :=
  (combiner_exact_pin_priority ["=2", "<5"] "=2" [] rfl).2 (by decide)


/-! ## Pairwise-contradiction scan lemmas -/

theorem opIsUpper_not_opIsLower {o : String} (h : opIsUpper o = true) :
    opIsLower o = false := by
  rcases (by simpa [opIsUpper] using h : o = "<" ∨ o = "<=") with rfl | rfl <;> rfl

theorem contraPair_eq_true_iff {p q : String} :
    contraPair p q = true ↔ upperBelowLower p q ∨ upperBelowLower q p := by
  simp [contraPair, upperBelowLower, and_assoc]

theorem pairScan_eq_none_iff (l : List String) :
    pairScan l = none ↔ ∀ p ∈ l, ∀ q ∈ l, ¬upperBelowLower p q := by
  induction l with
  | nil => simp [pairScan]
  | cons p rest ih =>
    rw [pairScan]
    cases hf : rest.find? (fun q => contraPair p q) with
    | some q =>
      constructor
      · intro h
        exact Option.noConfusion h
      · intro h
        have hq := List.find?_some hf
        have hqmem := List.mem_of_find?_eq_some hf
        exfalso
        rcases contraPair_eq_true_iff.mp hq with hpq | hqp
        · exact h p (List.mem_cons_self p rest) q (List.mem_cons_of_mem p hqmem) hpq
        · exact h q (List.mem_cons_of_mem p hqmem) p (List.mem_cons_self p rest) hqp
    | none =>
      rw [ih]
      have hnone : ∀ x ∈ rest, contraPair p x = false := by
        intro x hx
        have hnx := List.find?_eq_none.mp hf x hx
        revert hnx
        cases contraPair p x <;> simp
      constructor
      · intro h x hx y hy
        rcases List.mem_cons.mp hx with rfl | hx'
        · rcases List.mem_cons.mp hy with rfl | hy'
          · intro hu
            have hlow := opIsUpper_not_opIsLower hu.1
            rw [hu.2.1] at hlow
            exact Bool.noConfusion hlow
          · intro hu
            have hct : contraPair x y = true := contraPair_eq_true_iff.mpr (Or.inl hu)
            rw [hnone y hy'] at hct
            exact Bool.noConfusion hct
        · rcases List.mem_cons.mp hy with rfl | hy'
          · intro hu
            have hct : contraPair y x = true := contraPair_eq_true_iff.mpr (Or.inr hu)
            rw [hnone x hx'] at hct
            exact Bool.noConfusion hct
          · exact h x hx' y hy'
      · intro h x hx y hy
        exact h x (List.mem_cons_of_mem p hx) y (List.mem_cons_of_mem p hy)

/-- Unfolding of `combine_version_pinnings` under "no exact pin, at least one
valid pin". -/
theorem combineVersionPinnings_no_exact (pinnings : List String)
    (v : String) (vs : List String)
    (hv : validPinningsOf pinnings = v :: vs)
    (hne : exactPinningsOf pinnings = []) :
    combineVersionPinnings pinnings =
      (match pairScan (nonRedundantOf pinnings) with
      | some (pin, otherPin) =>
        .error ("Contradictory version pinnings found: " ++ pin ++ " and " ++ otherPin)
      | none =>
        match nonRedundantOf pinnings with
        | [] =>
          match inclusivePinningsOf pinnings with
          | i :: irest => .ok (pyMinBy pinVer i irest)
          | [] => .ok (pyMinBy pinVer v vs)
        | nr₀ :: nrs => .ok (pyJoin "," (nr₀ :: nrs))) := by
  unfold combineVersionPinnings
  rw [hv, hne]

/-! ## Claim C2 -/

/-- C2 as stated is refuted: on `["<=5", "<5"]` (all comparison pins, no
contradiction) the redundancy filter removes both pins — each has another
same-direction pin with an equal-or-tighter threshold, since only thresholds
are compared — and the code returns the fallback `"<=5"`, which is neither
the join `""` of the surviving pins nor the `"<5"` an operator-aware
redundancy reading would keep. -/
theorem combiner_join_counterexample :
    exactPinningsOf ["<=5", "<5"] = [] ∧
    nonRedundantOf ["<=5", "<5"] = [] ∧
    combineVersionPinnings ["<=5", "<5"] = .ok "<=5" ∧
    pyJoin "," (nonRedundantOf ["<=5", "<5"]) = "" ∧
    ("<=5" : String) ≠ "" ∧ ("<=5" : String) ≠ "<5" :=
  ⟨rfl, by decide, rfl, by decide, by decide, by decide⟩

/-- C2 amended: with no exact pin among the valid ones,
`combine_version_pinnings` raises a contradiction error iff among the pins
surviving the (threshold-only) redundancy filter some upper bound is strictly
below some lower bound; with no such contradiction and a nonempty survivor
list it returns the survivors joined by `","` in their original relative
order (when every pin is eliminated it instead returns the C8 fallback
pin). -/
theorem combiner_comparison_pins_characterization (pinnings : List String)
    (v : String) (vs : List String)
    (hv : validPinningsOf pinnings = v :: vs)
    (hne : exactPinningsOf pinnings = []) :
    ((∃ msg, combineVersionPinnings pinnings = .error msg) ↔
      ∃ p ∈ nonRedundantOf pinnings, ∃ q ∈ nonRedundantOf pinnings,
        upperBelowLower p q) ∧
    ((∀ p ∈ nonRedundantOf pinnings, ∀ q ∈ nonRedundantOf pinnings,
        ¬upperBelowLower p q) →
      nonRedundantOf pinnings ≠ [] →
      combineVersionPinnings pinnings =
        .ok (pyJoin "," (nonRedundantOf pinnings))) := by
  have hcomb := combineVersionPinnings_no_exact pinnings v vs hv hne
  constructor
  · constructor
    · intro ⟨msg, hmsg⟩
      by_contra hno
      push_neg at hno
      have hps : pairScan (nonRedundantOf pinnings) = none :=
        (pairScan_eq_none_iff _).mpr hno
      rw [hcomb, hps] at hmsg
      cases hnr : nonRedundantOf pinnings with
      | nil =>
        rw [hnr] at hmsg
        cases hincl : inclusivePinningsOf pinnings with
        | nil => rw [hincl] at hmsg; exact Except.noConfusion hmsg
        | cons i irest => rw [hincl] at hmsg; exact Except.noConfusion hmsg
      | cons nr₀ nrs => rw [hnr] at hmsg; exact Except.noConfusion hmsg
    · intro ⟨p, hp, q, hq, hu⟩
      cases hps : pairScan (nonRedundantOf pinnings) with
      | none => exact absurd hu ((pairScan_eq_none_iff _).mp hps p hp q hq)
      | some pr =>
        obtain ⟨a, b⟩ := pr
        rw [hcomb, hps]
        exact ⟨_, rfl⟩
  · intro hno hnr
    have hps : pairScan (nonRedundantOf pinnings) = none :=
      (pairScan_eq_none_iff _).mpr hno
    rw [hcomb, hps]
    cases hnrv : nonRedundantOf pinnings with
    | nil => exact absurd hnrv hnr
    | cons nr₀ nrs => rfl

/-- Witness for the amended C2: `combine([">=1", "<5"]) = ">=1,<5"`. -/
theorem combiner_comparison_pins_characterization_witness :
    combineVersionPinnings [">=1", "<5"] = .ok ">=1,<5" :=
  (((combiner_comparison_pins_characterization [">=1", "<5"] ">=1" ["<5"]
      rfl rfl).2 (by decide) (by decide)).trans rfl)


/-! ## Python `min` lemmas -/

theorem pyMinBy_mem (f : String → Int) (x : String) (xs : List String) :
    pyMinBy f x xs ∈ x :: xs := by
  induction xs generalizing x with
  | nil => exact List.mem_singleton.mpr rfl
  | cons y ys ih =>
    show List.foldl _ x (y :: ys) ∈ _
    rw [List.foldl_cons]
    by_cases h : f y < f x
    · rw [if_pos h]
      exact List.mem_cons_of_mem x (ih y)
    · rw [if_neg h]
      show pyMinBy f x ys ∈ x :: y :: ys
      rcases List.mem_cons.mp (ih x) with he | hm'
      · rw [he]
        exact List.mem_cons_self x (y :: ys)
      · exact List.mem_cons_of_mem x (List.mem_cons_of_mem y hm')

theorem pyMinBy_le (f : String → Int) (x : String) (xs : List String) :
    ∀ q ∈ x :: xs, f (pyMinBy f x xs) ≤ f q := by
  induction xs generalizing x with
  | nil =>
    intro q hq
    rw [List.mem_singleton.mp hq]
    exact le_refl _
  | cons y ys ih =>
    intro q hq
    show f (List.foldl _ x (y :: ys)) ≤ f q
    rw [List.foldl_cons]
    by_cases h : f y < f x
    · rw [if_pos h]
      rcases List.mem_cons.mp hq with hqx | hq'
      · rw [hqx]
        exact le_of_lt (lt_of_le_of_lt (ih y y (List.mem_cons_self y ys)) h)
      · exact ih y q hq'
    · rw [if_neg h]
      rcases List.mem_cons.mp hq with hqx | hq'
      · rw [hqx]
        exact ih x x (List.mem_cons_self x ys)
      · rcases List.mem_cons.mp hq' with hqy | hq''
        · rw [hqy]
          exact le_trans (ih x x (List.mem_cons_self x ys)) (not_lt.mp h)
        · exact ih x q (List.mem_cons_of_mem x hq'')

/-! ## Claim C8 -/

/-- C8 as stated is refuted: on `[">=3", ">3"]` the valid-pin list has two
elements, yet the redundancy filter eliminates every pin (each has the other,
same-direction, with an equal threshold), and the fallback returns the
inclusive pin `">=3"`; so "can eliminate every valid comparison pin only when
the valid-pin list has a single element" is false. -/
theorem combiner_fallback_counterexample :
    (validPinningsOf [">=3", ">3"]).length = 2 ∧
    nonRedundantOf [">=3", ">3"] = [] ∧
    combineVersionPinnings [">=3", ">3"] = .ok ">=3" :=
  ⟨by decide, by decide, rfl⟩

/-- C8 amended: the redundancy filter can eliminate every valid pin only when
the valid-pin list has at least TWO entries (never for a single-element
list); whenever the survivor list is empty, `combine_version_pinnings`
returns an inclusive (`<=`/`>=`) pin of minimal threshold when any inclusive
pin exists, and otherwise a valid pin of minimal threshold (Python `min`
takes the first minimizer). -/
theorem combiner_empty_survivor_fallback (pinnings : List String)
    (v : String) (vs : List String)
    (hv : validPinningsOf pinnings = v :: vs)
    (hne : exactPinningsOf pinnings = [])
    (hnr : nonRedundantOf pinnings = []) :
    2 ≤ (validPinningsOf pinnings).length ∧
    ∃ r, combineVersionPinnings pinnings = .ok r ∧
      (inclusivePinningsOf pinnings ≠ [] →
        r ∈ inclusivePinningsOf pinnings ∧
        ∀ q ∈ inclusivePinningsOf pinnings, pinVer r ≤ pinVer q) ∧
      (inclusivePinningsOf pinnings = [] →
        r ∈ validPinningsOf pinnings ∧
        ∀ q ∈ validPinningsOf pinnings, pinVer r ≤ pinVer q) := by
  constructor
  · have hvmem : v ∈ validPinningsOf pinnings := by
      rw [hv]
      exact List.mem_cons_self v vs
    have hvred : isRedundant v (validPinningsOf pinnings) = true := by
      by_contra hc
      have hb : (!(isRedundant v (validPinningsOf pinnings))) = true := by
        revert hc
        cases isRedundant v (validPinningsOf pinnings) <;> simp
      have hmem : v ∈ nonRedundantOf pinnings := List.mem_filter.mpr ⟨hvmem, hb⟩
      rw [hnr] at hmem
      exact absurd hmem (List.not_mem_nil v)
    rw [isRedundant, List.any_eq_true] at hvred
    obtain ⟨other, homem, hcond⟩ := hvred
    have ha : (other != v) = true := by
      cases hov : (other != v) with
      | true => rfl
      | false =>
        rw [hov, Bool.false_and] at hcond
        exact Bool.noConfusion hcond
    have hone : other ≠ v := bne_iff_ne.mp ha
    rw [hv] at homem
    rcases List.mem_cons.mp homem with rfl | hovs
    · exact absurd rfl hone
    · rw [hv, List.length_cons]
      have hpos : 0 < vs.length := List.length_pos.mpr (List.ne_nil_of_mem hovs)
      omega
  · have hps : pairScan (nonRedundantOf pinnings) = none := by
      rw [hnr]
      rfl
    rw [combineVersionPinnings_no_exact pinnings v vs hv hne, hps, hnr]
    cases hincl : inclusivePinningsOf pinnings with
    | cons i irest =>
      exact ⟨pyMinBy pinVer i irest, rfl,
        fun _ => ⟨pyMinBy_mem pinVer i irest, fun q hq => pyMinBy_le pinVer i irest q hq⟩,
        fun hc => absurd hc (List.cons_ne_nil i irest)⟩
    | nil =>
      refine ⟨pyMinBy pinVer v vs, rfl, fun hne2 => absurd rfl hne2, fun _ => ⟨?_, ?_⟩⟩
      · rw [hv]
        exact pyMinBy_mem pinVer v vs
      · intro q hq
        rw [hv] at hq
        exact pyMinBy_le pinVer v vs q hq

/-- Witness for the amended C8 at `[">=3", ">3"]`. -/
theorem combiner_empty_survivor_fallback_witness :
    2 ≤ (validPinningsOf [">=3", ">3"]).length ∧
    ∃ r, combineVersionPinnings [">=3", ">3"] = .ok r ∧
      (inclusivePinningsOf [">=3", ">3"] ≠ [] →
        r ∈ inclusivePinningsOf [">=3", ">3"] ∧
        ∀ q ∈ inclusivePinningsOf [">=3", ">3"], pinVer r ≤ pinVer q) ∧
      (inclusivePinningsOf [">=3", ">3"] = [] →
        r ∈ validPinningsOf [">=3", ">3"] ∧
        ∀ q ∈ validPinningsOf [">=3", ">3"], pinVer r ≤ pinVer q) :=
  combiner_empty_survivor_fallback [">=3", ">3"] ">=3" [">3"] rfl rfl (by decide)

end Unidep
